import Mathlib

/-!
Shallow embedding of `src/electron/app/components/NotificationHub/NotificationHub.tsx`.

The component keeps a module-level counter `let id = 0`, a React state list
`items`, and two `WeakMap`s (`refMap`, `cancelMap`) keyed by the item object;
it drives each item through a `useTransition` with scripts

  from:  { opacity: 0, height: 0, life: "100%" }
  enter: item => async next => await next({ opacity: 1, height: refMap.get(item).offsetHeight })
  leave: item => async (next, cancel) => {
    cancelMap.set(item, cancel)
    await next({ life: "0%" }); await next({ opacity: 0 }); await next({ height: 0 }) }
  onRest: item => setItems(state => state.filter(i => i.key !== item.key))
  config: (_, state) => state === "leave" ? [{ duration: timeout }, config, config] : config

and registers the producer callback once at mount:
`useEffect(() => void children(msg => setItems(state => [...state, { key: id++, ...msg }])), [])`.

Items are identified by their `key` (a `Nat` drawn from the counter); the two
WeakMaps are modelled as association lists keyed by that `key`, since the item
object is in bijection with its key while the item is alive.
-/

namespace Hub

/-- Payload of a toast: the fields of the source's `Notification` type
(`title`, `message`, `die`, `titleColor`). -/
structure Msg where
  title : String
  message : String
  die : Bool
  titleColor : String
deriving Repr, DecidableEq

/-- Spring physics parameters; the component default is
`{ tension: 125, friction: 20, precision: 0.1 }`. -/
structure SpringConfig where
  tension : Rat
  friction : Rat
  precision : Rat
deriving Repr, DecidableEq

/-- The component's default `config` prop. -/
def defaultConfig : SpringConfig := ⟨125, 20, 1/10⟩

/-- One animated update requested through `next` in a transition script:
`life` carries a percentage string, `opacity` and `height` numbers. -/
inductive AnimTarget
  | lifeTo (v : String)
  | opacityTo (v : Nat)
  | heightTo (v : Nat)
deriving Repr, DecidableEq

/-- Timing of one animation phase: either the spring `config` or an explicit
fixed `{ duration: … }` object. -/
inductive PhaseConfig
  | spring (c : SpringConfig)
  | fixedDuration (ms : Nat)
deriving Repr, DecidableEq

/-- Return type of the source's `config` prop: a single config object, or an
array of per-phase configs. -/
inductive ConfigChoice
  | single (c : PhaseConfig)
  | perPhase (cs : List PhaseConfig)
deriving Repr, DecidableEq

/-- `config: (_, state) => state === "leave" ? [{ duration: timeout }, config, config] : config`. -/
def configFn (timeout : Nat) (cfg : SpringConfig) (state : String) : ConfigChoice :=
  if state = "leave" then
    .perPhase [.fixedDuration timeout, .spring cfg, .spring cfg]
  else
    .single (.spring cfg)

/-- The three awaited `next` calls of the `leave` script, in source order. -/
def leaveTargets : List AnimTarget :=
  [.lifeTo "0%", .opacityTo 0, .heightTo 0]

/-- The leave script's phases paired with the configs the `config` prop
assigns to the `"leave"` state, element-wise as react-spring applies a
config array. -/
def dismissPhases (timeout : Nat) (cfg : SpringConfig) : List (AnimTarget × PhaseConfig) :=
  match configFn timeout cfg "leave" with
  | .perPhase cs => leaveTargets.zip cs
  | .single c0 => leaveTargets.map (fun a => (a, c0))

/-- `from: { opacity: 0, height: 0, life: "100%" }`. -/
structure FromValues where
  opacity : Nat
  height : Nat
  life : String
deriving Repr, DecidableEq

def fromValues : FromValues := ⟨0, 0, "100%"⟩

/-- Target of the `enter` script: `{ opacity: 1, height: refMap.get(item).offsetHeight }`. -/
structure EnterValues where
  opacity : Nat
  height : Nat
deriving Repr, DecidableEq

/-- The `enter` script computes `refMap.get(item).offsetHeight`: when the item
has no recorded measurement, `refMap.get(item)` is `undefined` and the member
access throws a `TypeError`; modelled as `Except`. -/
def enterTarget (refMap : List (Nat × Nat)) (k : Nat) : Except String EnterValues :=
  match refMap.lookup k with
  | some h => .ok ⟨1, h⟩
  | none => .error "TypeError: refMap.get(item) is undefined"

/-- Transition phase of a live item, as driven by `useTransition`: a fresh
item animates in (`enter`), rests fully visible, and once it leaves the input
list its `leave` script runs; `leaving true` records that the script's
`cancel` has been invoked (react-spring stops the in-flight animation;
stopping an already-stopped one changes nothing). -/
inductive Phase
  | entering
  | visible
  | leaving (cancelled : Bool)
deriving Repr, DecidableEq

/-- A queue entry: the source spreads the pushed message into
`{ key: id++, ...msg }`; `phase` is the entry's transition state. -/
structure Item where
  key : Nat
  msg : Msg
  phase : Phase
deriving Repr, DecidableEq

/-- Component state: the module counter `id`, the `items` state list, and the
two WeakMaps — `refMap` maps an item's key to its measured `offsetHeight`,
`cancelKeys` records which items currently have a `cancel` handle stored in
`cancelMap` (the handle itself cancels that item's leave script). -/
structure HubState where
  nextId : Nat
  items : List Item
  refMap : List (Nat × Nat)
  cancelKeys : List Nat
deriving Repr, DecidableEq

/-- Initial state: `let id = 0`, `useState([])`, two empty WeakMaps. -/
def init : HubState := ⟨0, [], [], []⟩

/-- The push function handed to the producer:
`msg => setItems(state => [...state, { key: id++, ...msg }])`.
The new entry starts its transition in the `from`/`enter` phase. -/
def pushMsg (m : Msg) (s : HubState) : HubState :=
  { s with
    items := s.items ++ [⟨s.nextId, m, .entering⟩]
    nextId := s.nextId + 1 }

/-- `onRest: item => setItems(state => state.filter(i => i.key !== item.key))`.
Only the state list is touched: neither WeakMap is cleared (their entries are
weakly held and reclaimed only by garbage collection of the item object). -/
def removeItem (k : Nat) (s : HubState) : HubState :=
  { s with items := s.items.filter (fun i => i.key != k) }

/-- The renderer's ref callback `ref => ref && refMap.set(item, ref)`:
records the measured node (its `offsetHeight`) under the item's key;
`WeakMap.set` overwrites an existing entry. -/
def recordHeight (k h : Nat) (s : HubState) : HubState :=
  { s with refMap := (k, h) :: s.refMap.filter (fun p => p.1 != k) }

/-- The item's `enter` animation rests: entering becomes fully visible. -/
def settleEnter (k : Nat) (s : HubState) : HubState :=
  { s with
    items := s.items.map fun i =>
      if i.key = k ∧ i.phase = .entering then { i with phase := .visible } else i }

/-- Start of the `leave` script: its first statement is
`cancelMap.set(item, cancel)`, storing the cancel handle, and the item's
transition enters the leave state. -/
def startLeave (k : Nat) (s : HubState) : HubState :=
  { s with
    items := s.items.map fun i =>
      if i.key = k then { i with phase := .leaving false } else i
    cancelKeys := if s.cancelKeys.contains k then s.cancelKeys else k :: s.cancelKeys }

/-- Invoking the stored `cancel` handle of an item's leave script:
react-spring stops that in-flight leave; a handle invoked on an
already-stopped sequence, or on an item not in its leave phase, changes
nothing. The handle is a closure over the transition, so it touches neither
WeakMap. -/
def cancelLeave (k : Nat) (s : HubState) : HubState :=
  { s with
    items := s.items.map fun i =>
      if i.key = k then
        { i with
          phase := match i.phase with
                   | .leaving _ => .leaving true
                   | p => p }
      else i }

/-- The close button's
`onClick: e => { e.stopPropagation(); cancelMap.has(item) && cancelMap.get(item)() }`:
invoke the stored cancel handle only when one is present; otherwise the `&&`
short-circuits and nothing happens. -/
def clickItem (k : Nat) (s : HubState) : HubState :=
  if s.cancelKeys.contains k then cancelLeave k s else s

/-- The observable operations on a mounted hub, serialized by the
single-threaded event model. -/
inductive Event
  | push (m : Msg)
  | measure (k h : Nat)
  | settle (k : Nat)
  | startDismiss (k : Nat)
  | finishDismiss (k : Nat)
  | click (k : Nat)
deriving Repr, DecidableEq

def step (e : Event) (s : HubState) : HubState :=
  match e with
  | .push m => pushMsg m s
  | .measure k h => recordHeight k h s
  | .settle k => settleEnter k s
  | .startDismiss k => startLeave k s
  | .finishDismiss k => removeItem k s
  | .click k => clickItem k s

/-- Run a sequence of events from the freshly mounted component. -/
def run (es : List Event) : HubState :=
  es.foldl (fun s e => step e s) init

/-- The identities currently live in the queue. -/
def keysOf (s : HubState) : List Nat :=
  s.items.map (·.key)

/-- The mount effect `useEffect(() => void children(push), [])`: the arrow
returns `void (children push)`, i.e. `undefined`, so React receives no
cleanup function to run at unmount. -/
def mountCleanup : Option (HubState → HubState) := none

/-- A hub together with its mount status, to state what a producer call can
do once the component is gone. -/
structure MountedHub where
  mounted : Bool
  hub : HubState
deriving Repr, DecidableEq

/-- A freshly mounted component. -/
def mountHub : MountedHub := ⟨true, init⟩

/-- Unmounting runs the effect cleanup when one was registered; the source
registered none. -/
def unmountHub (m : MountedHub) : MountedHub :=
  ⟨false,
   match mountCleanup with
   | some f => f m.hub
   | none => m.hub⟩

/-- The push closure the producer retains is
`msg => setItems(state => [...state, { key: id++, ...msg }])`; nothing in it
consults the mount status, so it runs the same state update after unmount. -/
def retainedPush (msg : Msg) (m : MountedHub) : MountedHub :=
  { m with hub := pushMsg msg m.hub }

/-- A concrete payload used by the concrete-state evaluations below. -/
def sampleMsg : Msg := ⟨"t", "m", false, "orange"⟩

/-- A state whose single item (key 0) is in its leave phase with a cancel
handle stored. -/
def dismissingState : HubState :=
  run [.push sampleMsg, .settle 0, .startDismiss 0]

/-- A state in which item 0 was pushed, measured, dismissed, and fully
removed by `onRest`. -/
def removedState : HubState :=
  run [.push sampleMsg, .measure 0 42, .settle 0, .startDismiss 0, .finishDismiss 0]

/-- The state after one push and one `onRest` removal of that item. -/
def removedOnce : HubState :=
  removeItem 0 (run [.push sampleMsg])

/-- The inductive invariant behind identity uniqueness: live keys are
pairwise distinct and all below the counter. -/
def GoodState (s : HubState) : Prop :=
  (keysOf s).Nodup ∧ ∀ i ∈ s.items, i.key < s.nextId

/-- A concrete run: three pushes, then the middle-less queue loses key 2. -/
def witnessRun : List Event :=
  [.push sampleMsg, .push sampleMsg, .push sampleMsg, .finishDismiss 2]

end Hub

namespace Hub

theorem map_key_of_keyFixed (l : List Item) (f : Item → Item)
    (hf : ∀ i, (f i).key = i.key) : (l.map f).map (·.key) = l.map (·.key) := by
  rw [List.map_map]
  congr 1
  funext i
  exact hf i

theorem keysOf_pushMsg (m : Msg) (s : HubState) :
    keysOf (pushMsg m s) = keysOf s ++ [s.nextId] := by
  simp [keysOf, pushMsg]

theorem keysOf_settleEnter (k : Nat) (s : HubState) :
    keysOf (settleEnter k s) = keysOf s := by
  apply map_key_of_keyFixed
  intro i
  by_cases h : i.key = k ∧ i.phase = Phase.entering <;> simp [h]

theorem keysOf_startLeave (k : Nat) (s : HubState) :
    keysOf (startLeave k s) = keysOf s := by
  apply map_key_of_keyFixed
  intro i
  by_cases h : i.key = k <;> simp [h]

theorem keysOf_cancelLeave (k : Nat) (s : HubState) :
    keysOf (cancelLeave k s) = keysOf s := by
  apply map_key_of_keyFixed
  intro i
  by_cases h : i.key = k <;> simp [h]

theorem keysOf_clickItem (k : Nat) (s : HubState) :
    keysOf (clickItem k s) = keysOf s := by
  unfold clickItem
  split
  · exact keysOf_cancelLeave k s
  · rfl

theorem keysOf_removeItem_sublist (k : Nat) (s : HubState) :
    (keysOf (removeItem k s)).Sublist (keysOf s) :=
  List.Sublist.map _ (List.filter_sublist s.items)

/-- Claim C2: removal is idempotent — `onRest` filters the list by key, so
the first call deletes the notification with that identity, a call for an
identity no longer present is a no-op, and repeating a removal leaves the
state identical. -/
theorem remove_idempotent (s : HubState) (k : Nat) :
    removeItem k (removeItem k s) = removeItem k s ∧
    (∀ i, i ∈ (removeItem k s).items ↔ i ∈ s.items ∧ i.key ≠ k) ∧
    ((∀ i ∈ s.items, i.key ≠ k) → removeItem k s = s) := by
  refine ⟨?_, ?_, ?_⟩
  · unfold removeItem
    simp [List.filter_filter]
  · intro i
    simp [removeItem, List.mem_filter]
  · intro h
    unfold removeItem
    have : s.items.filter (fun i => i.key != k) = s.items := by
      apply List.filter_eq_self.mpr
      intro i hi
      simpa using h i hi
    simp [this]

theorem remove_idempotent_witness :
    removeItem 0 removedOnce = removedOnce :=
  (remove_idempotent removedOnce 0).2.2 (by decide)

/-- Claim C3: the dismiss sequence runs three awaited phases in order — the
life indicator from the initial "100%" to "0%" under a fixed duration of
exactly `timeout`, then opacity to zero, then height to zero, the latter two
under the same spring config the non-leave states (Entering included) use. -/
theorem dismiss_three_phases (t : Nat) (c : SpringConfig) :
    dismissPhases t c =
      [(.lifeTo "0%", .fixedDuration t),
       (.opacityTo 0, .spring c),
       (.heightTo 0, .spring c)] ∧
    fromValues.life = "100%" ∧
    configFn t c "enter" = .single (.spring c) := by
  refine ⟨rfl, rfl, ?_⟩
  simp [configFn]

/-- Claim C5: clicking an item with no cancel handle in `cancelMap` is a
no-op — `cancelMap.has(item) && cancelMap.get(item)()` short-circuits, so no
queue, phase, or cache state changes and no error is raised. -/
theorem click_without_handle (k : Nat) (s : HubState)
    (h : s.cancelKeys.contains k = false) : clickItem k s = s := by
  have h' : k ∉ s.cancelKeys := by simpa using h
  simp [clickItem, h']

theorem click_without_handle_witness :
    (run [.push sampleMsg]).cancelKeys.contains 0 = false ∧
    clickItem 0 (run [.push sampleMsg]) = run [.push sampleMsg] :=
  ⟨by decide, click_without_handle 0 _ (by decide)⟩

/-- Claim C9: an accepted producer call appends exactly one element at the
tail, carrying the next identity and phase Entering, and leaves every
previously queued notification unchanged in place. -/
theorem push_appends_one (m : Msg) (s : HubState) :
    (pushMsg m s).items.length = s.items.length + 1 ∧
    (pushMsg m s).items.take s.items.length = s.items ∧
    (pushMsg m s).items.getLast? = some ⟨s.nextId, m, .entering⟩ := by
  refine ⟨?_, ?_, ?_⟩
  · simp [pushMsg]
  · simp [pushMsg, List.take_left]
  · simp [pushMsg]

/-- Claim C10: the `onRest` removal path only filters by key — the surviving
notifications are literally the same records (fields, identity, phase
untouched) in the same relative order, and the caches and counter are
untouched. -/
theorem remove_frame (k : Nat) (s : HubState) :
    ((removeItem k s).items.Sublist s.items) ∧
    (∀ i, i ∈ (removeItem k s).items ↔ i ∈ s.items ∧ i.key ≠ k) ∧
    (removeItem k s).refMap = s.refMap ∧
    (removeItem k s).cancelKeys = s.cancelKeys ∧
    (removeItem k s).nextId = s.nextId := by
  refine ⟨List.filter_sublist s.items, ?_, rfl, rfl, rfl⟩
  intro i
  simp [removeItem, List.mem_filter]

end Hub

namespace Hub

theorem cancelLeave_idem (k : Nat) (s : HubState) :
    cancelLeave k (cancelLeave k s) = cancelLeave k s := by
  simp only [cancelLeave, List.map_map]
  congr 1
  apply List.map_congr_left
  intro i _
  by_cases h : i.key = k <;> cases hp : i.phase <;> simp [Function.comp, h, hp]

/-- Claim C4 counterexample: invoking the cancel handle of an item in its
Dismissing phase does not clear the handle from the cache — after the click
the handle for identity 0 is still stored, so the "take both returns and
clears" contract does not hold of the code. -/
theorem click_keeps_handle_cex :
    dismissingState.cancelKeys.contains 0 = true ∧
    (clickItem 0 dismissingState).cancelKeys.contains 0 = true := by
  decide

/-- Claim C4 amended: invoking the cancel handle cancels the in-flight
dismissal but leaves the handle stored in the cache; the invocation is
idempotent, so a second click re-invokes the retained handle with no further
effect on the notification's state. -/
theorem click_cancel_at_most_once (k : Nat) (s : HubState) :
    (clickItem k s).cancelKeys = s.cancelKeys ∧
    clickItem k (clickItem k s) = clickItem k s := by
  constructor
  · unfold clickItem
    split <;> rfl
  · by_cases h : k ∈ s.cancelKeys
    · have h1 : clickItem k s = cancelLeave k s := by simp [clickItem, h]
      have h2 : k ∈ (cancelLeave k s).cancelKeys := h
      rw [h1]
      simp [clickItem, h2, cancelLeave_idem]
    · have h1 : clickItem k s = s := by simp [clickItem, h]
      rw [h1]
      exact h1

/-- Claim C6 counterexample: after identity 0 reaches Removed (deleted from
the queue by `onRest`), the caches still hold its entries — the height
lookup returns the recorded 42 and the cancel handle is still present, both
contradicting "return absent". -/
theorem removed_cache_cex :
    removedState.items = [] ∧
    removedState.refMap.lookup 0 = some 42 ∧
    removedState.cancelKeys.contains 0 = true := by
  decide

/-- Claim C6 amended: removal deletes the identity from the queue, but it
discards nothing from the ResourceCache — the weakly-keyed height and
cancel-handle entries persist (reclaimed only by garbage collection of the
item object), so a probe with a retained reference still returns them. -/
theorem remove_discards_nothing (k : Nat) (s : HubState) :
    (removeItem k s).refMap = s.refMap ∧
    (removeItem k s).cancelKeys = s.cancelKeys ∧
    (∀ i ∈ (removeItem k s).items, i.key ≠ k) := by
  refine ⟨rfl, rfl, ?_⟩
  intro i hi
  have hne := (List.mem_filter.mp hi).2
  simpa using hne

theorem remove_discards_nothing_witness :
    (removeItem 1 dismissingState).cancelKeys = dismissingState.cancelKeys ∧
    (⟨0, sampleMsg, .leaving false⟩ : Item).key ≠ 1 :=
  ⟨(remove_discards_nothing 1 dismissingState).2.1,
   (remove_discards_nothing 1 dismissingState).2.2 ⟨0, sampleMsg, .leaving false⟩ (by decide)⟩

/-- Claim C8 counterexample: when no measurement is recorded at the moment
the enter script computes its target, `refMap.get(item).offsetHeight` throws
a TypeError instead of resolving with a fallback height. -/
theorem enter_unmeasured_throws :
    enterTarget [] 0 = .error "TypeError: refMap.get(item) is undefined" := rfl

/-- Claim C8 amended: Entering starts from opacity 0 and height 0 and, when
the item's measurement has been recorded, targets opacity 1 and exactly the
measured content height; with no recorded measurement the enter script
throws rather than falling back. -/
theorem enter_from_and_target (rm : List (Nat × Nat)) (k h : Nat)
    (hm : rm.lookup k = some h) :
    fromValues = ⟨0, 0, "100%"⟩ ∧ enterTarget rm k = .ok ⟨1, h⟩ := by
  refine ⟨rfl, ?_⟩
  simp [enterTarget, hm]

theorem enter_from_and_target_witness :
    (([(0, 42)] : List (Nat × Nat)).lookup 0 = some 42) ∧
    (fromValues = ⟨0, 0, "100%"⟩ ∧ enterTarget [(0, 42)] 0 = .ok ⟨1, 42⟩) :=
  ⟨by decide, enter_from_and_target [(0, 42)] 0 42 (by decide)⟩

/-- Claim C7: the mount effect returns no cleanup (`void children(push)`
evaluates to `undefined`), so nothing unsubscribes the producer at unmount
and the retained push closure still appends to the destroyed queue —
evaluated here at a concrete post-unmount producer call. -/
theorem push_after_unmount_mutates :
    mountCleanup = none ∧
    (unmountHub mountHub).mounted = false ∧
    (retainedPush sampleMsg (unmountHub mountHub)).hub.items ≠
      (unmountHub mountHub).hub.items := by
  refine ⟨rfl, rfl, ?_⟩
  decide

end Hub

namespace Hub

theorem goodState_init : GoodState init := by
  constructor <;> simp [init, keysOf]

theorem goodState_pushMsg (m : Msg) (s : HubState) (hs : GoodState s) :
    GoodState (pushMsg m s) := by
  obtain ⟨hnodup, hbound⟩ := hs
  constructor
  · rw [keysOf_pushMsg]
    refine List.Nodup.append hnodup (List.nodup_singleton _) ?_
    intro a ha hb
    obtain ⟨i, hi, hk⟩ := List.mem_map.mp ha
    have hlt : a < s.nextId := hk ▸ hbound i hi
    have heq : a = s.nextId := by simpa using hb
    exact absurd (heq ▸ hlt) (lt_irrefl _)
  · intro i hi
    rcases List.mem_append.mp hi with h | h
    · exact Nat.lt_succ_of_lt (hbound i h)
    · have : i = ⟨s.nextId, m, .entering⟩ := by simpa using h
      rw [this]
      exact Nat.lt_succ_self _

theorem bound_of_mapItems (l : List Item) (n : Nat) (f : Item → Item)
    (hf : ∀ i, (f i).key = i.key) (hb : ∀ i ∈ l, i.key < n) :
    ∀ i ∈ l.map f, i.key < n := by
  intro i hi
  obtain ⟨j, hj, hji⟩ := List.mem_map.mp hi
  subst hji
  rw [hf j]
  exact hb j hj

theorem goodState_step (e : Event) (s : HubState) (hs : GoodState s) :
    GoodState (step e s) := by
  obtain ⟨hnodup, hbound⟩ := hs
  cases e with
  | push m => exact goodState_pushMsg m s ⟨hnodup, hbound⟩
  | measure k h => exact ⟨hnodup, hbound⟩
  | settle k =>
      refine ⟨?_, ?_⟩
      · rw [show step (.settle k) s = settleEnter k s from rfl, keysOf_settleEnter]
        exact hnodup
      · exact bound_of_mapItems s.items s.nextId _
          (fun i => by by_cases h : i.key = k ∧ i.phase = Phase.entering <;> simp [h]) hbound
  | startDismiss k =>
      refine ⟨?_, ?_⟩
      · rw [show step (.startDismiss k) s = startLeave k s from rfl, keysOf_startLeave]
        exact hnodup
      · exact bound_of_mapItems s.items s.nextId _
          (fun i => by by_cases h : i.key = k <;> simp [h]) hbound
  | finishDismiss k =>
      refine ⟨?_, ?_⟩
      · exact (keysOf_removeItem_sublist k s).nodup hnodup
      · intro i hi
        exact hbound i (List.mem_of_mem_filter hi)
  | click k =>
      refine ⟨?_, ?_⟩
      · rw [show step (.click k) s = clickItem k s from rfl, keysOf_clickItem]
        exact hnodup
      · show ∀ i ∈ (clickItem k s).items, i.key < (clickItem k s).nextId
        unfold clickItem
        split
        · exact bound_of_mapItems s.items s.nextId _
            (fun i => by by_cases h : i.key = k <;> simp [h]) hbound
        · exact hbound

theorem goodState_foldl (es : List Event) (s : HubState) (hs : GoodState s) :
    GoodState (es.foldl (fun t e => step e t) s) := by
  induction es generalizing s with
  | nil => exact hs
  | cons e es ih => exact ih _ (goodState_step e s hs)

theorem goodState_run (es : List Event) : GoodState (run es) :=
  goodState_foldl es init goodState_init

theorem step_no_reinsert (e : Event) (s : HubState) (k : Nat)
    (hlt : k < s.nextId) (hnot : k ∉ keysOf s) : k ∉ keysOf (step e s) := by
  cases e with
  | push m =>
      rw [show step (.push m) s = pushMsg m s from rfl, keysOf_pushMsg]
      intro hmem
      rcases List.mem_append.mp hmem with h | h
      · exact hnot h
      · have : k = s.nextId := by simpa using h
        exact absurd (this ▸ hlt) (lt_irrefl _)
  | measure k' h' => exact hnot
  | settle k' =>
      rw [show step (.settle k') s = settleEnter k' s from rfl, keysOf_settleEnter]
      exact hnot
  | startDismiss k' =>
      rw [show step (.startDismiss k') s = startLeave k' s from rfl, keysOf_startLeave]
      exact hnot
  | finishDismiss k' =>
      intro hmem
      exact hnot ((keysOf_removeItem_sublist k' s).subset hmem)
  | click k' =>
      rw [show step (.click k') s = clickItem k' s from rfl, keysOf_clickItem]
      exact hnot

/-- Claim C1: every accepted push appends one notification keyed by the next
value of the monotone counter, so along any event sequence the live
identities are pairwise distinct, all below the counter, and an identity no
longer live (but once assigned) is never re-inserted by any further step. -/
theorem identities_unique (es : List Event) :
    (keysOf (run es)).Nodup ∧
    (∀ i ∈ (run es).items, i.key < (run es).nextId) ∧
    (∀ e k, k < (run es).nextId → k ∉ keysOf (run es) →
      k ∉ keysOf (step e (run es))) := by
  refine ⟨(goodState_run es).1, (goodState_run es).2, ?_⟩
  intro e k hlt hnot
  exact step_no_reinsert e (run es) k hlt hnot

theorem identities_unique_witness :
    2 < (run witnessRun).nextId ∧
    2 ∉ keysOf (run witnessRun) ∧
    2 ∉ keysOf (step (.push sampleMsg) (run witnessRun)) :=
  ⟨by decide, by decide,
   (identities_unique witnessRun).2.2 (.push sampleMsg) 2 (by decide) (by decide)⟩

end Hub
